import Mathlib

/-!
Shallow embedding of the gocurl measurement-and-analysis core
(repository erfianugrah/gocurl) and verification of its specification.

Modelling conventions:
* Go `time.Duration` / `int64` / `int` values are modelled as `Int`
  (nanoseconds for durations); Go integer division truncates toward zero,
  which is `Int.tdiv`.
* Go `float64` arithmetic is modelled exactly: as `Rat` where the source
  only adds, multiplies and divides, and as `Real` in the streaming
  analyzer, whose standard deviation needs `Real.sqrt`.  Conversion of a
  `float64` to an integer type truncates toward zero (`ratTrunc`).
* Go maps read with a zero default are modelled as total functions into
  `Nat` returning 0 outside their support.
* The concurrent load generator (`App.runLoad` in internal/app/app.go) is
  summarised by its schedule-independent observable outcome: which jobs
  are enqueued, how many workers start, and which samples reach the
  collector.  These counts do not depend on goroutine interleaving.
-/

namespace Gocurl

/-- Truncation of a rational toward zero, the semantics of Go's
`int64(x)` / `time.Duration(x)` conversion applied to a `float64`. -/
def ratTrunc (q : ℚ) : ℤ :=
  if q < 0 then -⌊-q⌋ else ⌊q⌋

/-! ## Shared sample type (internal/client/tracer.go `TimingBreakdown`)

Only the fields the collector and the load generator read are modelled:
`Total` (total latency in ns), `StatusCode`, `ResponseSize`, `Error`
(empty string means success). -/

structure TimingBreakdown where
  total : ℤ := 0
  statusCode : ℤ := 0
  responseSize : ℤ := 0
  error : String := ""
deriving DecidableEq, Repr

instance : Inhabited TimingBreakdown := ⟨{}⟩

/-! ## Metrics collector (internal/metrics/collector.go)

`Collector` state is `{timings, startTime, endTime}` under one mutex; the
aggregation `Calculate` is a pure function of the recorded list, except
for the wall-clock window fields (`Duration`, `RequestsPerSecond`,
`BytesPerSecond`), which depend on real time and are omitted here (no
claim mentions them). -/

/-- Embeds `percentile` (collector.go lines 111-133): nth percentile of a
sorted slice of durations, with clamping at p ≤ 0 and p ≥ 100 and linear
interpolation in between.  Go's `int(index)` truncates; `index ≥ 0` in
the branch where it is used, so it is the floor.  The final
`time.Duration(...)` cast of the interpolated `float64` is `ratTrunc`.
The slice accesses `sorted[lower]` and `sorted[upper]` are modelled with
`getD _ 0`; in the branch where they occur both indices are in range. -/
def percentile (sorted : List ℤ) (p : ℚ) : ℤ :=
  match sorted with
  | [] => 0
  | x :: xs =>
    if p ≤ 0 then x
    else if 100 ≤ p then (x :: xs).getLast (List.cons_ne_nil x xs)
    else
      let index : ℚ := p / 100 * (((x :: xs).length - 1 : ℕ) : ℚ)
      let lower : ℕ := (⌊index⌋).toNat
      let upper : ℕ := lower + 1
      if (x :: xs).length ≤ upper then (x :: xs).getLast (List.cons_ne_nil x xs)
      else
        let weight : ℚ := index - (lower : ℚ)
        ratTrunc (((x :: xs).getD lower 0 : ℚ) * (1 - weight) +
          ((x :: xs).getD upper 0 : ℚ) * weight)

/-- Modelled from the spec (section 4.2 step 3), for comparison with
`percentile`: clamp p ≤ 0 to index 0 and p ≥ 100 to index n-1, otherwise
linearly interpolate between the elements at positions `floor(idx)` and
`ceil(idx)` weighted by the fractional part of `idx = (p/100)*(n-1)`. -/
def percentileSpec (sorted : List ℤ) (p : ℚ) : ℤ :=
  match sorted with
  | [] => 0
  | x :: xs =>
    if p ≤ 0 then x
    else if 100 ≤ p then (x :: xs).getLast (List.cons_ne_nil x xs)
    else
      let index : ℚ := p / 100 * (((x :: xs).length - 1 : ℕ) : ℚ)
      let fl : ℕ := (⌊index⌋).toNat
      let ce : ℕ := (⌈index⌉).toNat
      let frac : ℚ := index - (⌊index⌋ : ℚ)
      ratTrunc (((x :: xs).getD fl 0 : ℚ) * (1 - frac) +
        ((x :: xs).getD ce 0 : ℚ) * frac)

/-- Embeds the bucket computation of `createHistogram` (collector.go
lines 144-155): `bucket := int(latency.Milliseconds() / 10)`, two
truncating integer divisions. -/
def bucketOf (latencyNs : ℤ) : ℤ :=
  (latencyNs.tdiv 1000000).tdiv 10

/-- Embeds `createHistogram` (collector.go lines 144-155).  The Go
`map[int]int` is modelled by its lookup function (absent keys read 0,
matching Go's zero-value map reads). -/
def createHistogram (latencies : List ℤ) : ℤ → ℕ :=
  fun b => latencies.countP (fun d => bucketOf d == b)

/-- Aggregated statistics (internal/metrics/stats.go `Stats`).  The
wall-clock window fields are omitted (see module comment). -/
structure Stats where
  totalRequests : ℕ := 0
  successfulRequests : ℕ := 0
  failedRequests : ℕ := 0
  minLatency : ℤ := 0
  maxLatency : ℤ := 0
  meanLatency : ℤ := 0
  p50 : ℤ := 0
  p90 : ℤ := 0
  p95 : ℤ := 0
  p99 : ℤ := 0
  p999 : ℤ := 0
  p9999 : ℤ := 0
  statusCodes : ℤ → ℕ := fun _ => 0
  histogram : ℤ → ℕ := fun _ => 0
  totalBytes : ℤ := 0

/-- Embeds `Collector.Calculate` (collector.go lines 40-108) as a pure
function of the recorded samples.  On zero samples it returns the
all-zero `Stats`.  Latencies are sorted ascending; min/max/mean, the
four unconditional percentiles, the conditional extended percentiles,
the status-code map (successful samples only) and the 10 ms-bucket
latency histogram are computed as in the source.  `MeanLatency` uses
Go's truncating integer division of durations. -/
def calculate (timings : List TimingBreakdown) : Stats :=
  match timings with
  | [] => {}
  | t0 :: trest =>
    let ts := t0 :: trest
    let latencies := (ts.map (fun t => t.total)).mergeSort (fun a b => decide (a ≤ b))
    let totalLatency := (ts.map (fun t => t.total)).sum
    let n := ts.length
    { totalRequests := n
      successfulRequests := ts.countP (fun t => t.error == "")
      failedRequests := ts.countP (fun t => !(t.error == ""))
      minLatency := latencies.getD 0 0
      maxLatency := latencies.getD (latencies.length - 1) 0
      meanLatency := totalLatency.tdiv (n : ℤ)
      p50 := percentile latencies 50
      p90 := percentile latencies 90
      p95 := percentile latencies 95
      p99 := percentile latencies 99
      p999 := if 1000 ≤ n then percentile latencies (999/10) else 0
      p9999 := if 10000 ≤ n then percentile latencies (9999/100) else 0
      statusCodes := fun code => ts.countP (fun t => t.error == "" && t.statusCode == code)
      histogram := createHistogram latencies
      totalBytes := (ts.map (fun t => t.responseSize)).sum }

/-! ## Streaming delivery analyzer (internal/client/streaming.go) -/

/-- Embeds `ChunkTiming`: one discrete, timestamped read of bytes from a
response body.  `elapsedTime` and `timestamp` are in ns; the
instantaneous `throughput` (Mbps) involves only field operations, so it
is modelled as an exact rational. -/
structure ChunkTiming where
  sequenceNumber : ℤ := 0
  size : ℤ := 0
  elapsedTime : ℤ := 0
  timestamp : ℤ := 0
  throughput : ℚ := 0
deriving DecidableEq, Repr

instance : Inhabited ChunkTiming := ⟨{}⟩

/-- Embeds `StallInfo`: one inter-chunk gap exceeding the threshold.
`position` is the byte count received strictly before the stall. -/
structure StallInfo where
  startTime : ℤ := 0
  endTime : ℤ := 0
  duration : ℤ := 0
  position : ℤ := 0
deriving DecidableEq, Repr

/-- Embeds `StreamMetrics` (the fields the analyzer reads). -/
structure StreamMetrics where
  chunkTimings : List ChunkTiming := []
  firstChunkTime : ℤ := 0
  lastChunkTime : ℤ := 0
  totalChunks : ℤ := 0
  totalBytes : ℤ := 0
  protocol : String := ""

/-- Embeds `BufferingAnalysis`.  The statistical `float64` fields are
modelled as reals because the standard deviation is a square root. -/
structure BufferingAnalysis where
  timeToFirstByte : ℤ := 0
  firstChunkGap : ℤ := 0
  chunkPattern : String := ""
  chunkTimingCV : ℝ := 0
  bufferingDetected : Bool := false
  meanDelay : ℝ := 0
  stdDevDelay : ℝ := 0
  minDelay : ℝ := -1
  maxDelay : ℝ := -1
  confidence : ℝ := 0

/-- Embeds the loop body of `DetectStalls` (streaming.go lines 353-369):
walk consecutive chunk pairs carrying the running byte total, emitting a
stall for each gap strictly exceeding the threshold.  `totalBytes` is
incremented by the previous chunk's size after the pair is examined. -/
def stallsLoop (threshold : ℤ) : ChunkTiming → List ChunkTiming → ℤ → List StallInfo
  | _, [], _ => []
  | prev, curr :: rest, totalBytes =>
    let delay := curr.elapsedTime - prev.elapsedTime
    let tail := stallsLoop threshold curr rest (totalBytes + prev.size)
    if threshold < delay then
      { startTime := prev.elapsedTime, endTime := curr.elapsedTime
        duration := delay, position := totalBytes } :: tail
    else tail

/-- Embeds `DetectStalls` (streaming.go lines 345-372): fewer than two
chunks yield no stalls; otherwise scan consecutive pairs. -/
def DetectStalls (chunks : List ChunkTiming) (threshold : ℤ) : List StallInfo :=
  match chunks with
  | [] => []
  | [_] => []
  | c :: rest => stallsLoop threshold c rest 0

/-- Embeds `calculateMean` (streaming.go lines 375-384). -/
noncomputable def calculateMean (values : List ℝ) : ℝ :=
  if values = [] then 0 else values.sum / (values.length : ℝ)

/-- Embeds `calculateStdDev` (streaming.go lines 386-396): population
standard deviation, the sum of squared deviations divided by n (not
n-1) under the square root. -/
noncomputable def calculateStdDev (values : List ℝ) (mean : ℝ) : ℝ :=
  if values = [] then 0
  else Real.sqrt ((values.map (fun v => (v - mean) * (v - mean))).sum / (values.length : ℝ))

/-- Embeds `detectChunkPattern` (streaming.go lines 398-424).  When
`delays` is empty, Go computes `0/0 = NaN` for `stallRatio` and the
comparison `NaN > 0.3` is false, giving "burst"; the real-division
convention `0/0 = 0` yields the same branch. -/
noncomputable def detectChunkPattern (cv : ℝ) (delays : List ℝ) : String :=
  if cv < 0.3 then "steady"
  else if cv < 0.7 then "moderate"
  else
    let longDelays : ℕ := delays.countP (fun d => decide (500 < d))
    let stallRatio : ℝ := (longDelays : ℝ) / (delays.length : ℝ)
    if 0.3 < stallRatio then "stalled" else "burst"

/-- Embeds `detectBuffering` (streaming.go lines 426-456): four weighted
signals accumulated in order, buffering reported when they reach 2. -/
noncomputable def detectBuffering (analysis : BufferingAnalysis) (metrics : StreamMetrics) : Bool :=
  let signals : ℕ := 0
  let signals := if metrics.totalChunks = 1 then signals + 2 else signals
  let signals :=
    if 1000000000 < analysis.timeToFirstByte ∧ analysis.chunkPattern = "burst" then signals + 1
    else signals
  let signals := if 1000000000 < analysis.firstChunkGap then signals + 1 else signals
  let signals :=
    if analysis.chunkTimingCV < 0.3 ∧ 500000000 < analysis.timeToFirstByte then signals + 1
    else signals
  2 ≤ signals

/-- Embeds `calculateConfidence` (streaming.go lines 458-482): base 0.5,
plus 0.3 / 0.2 / 0.1 by chunk count, plus 0.2 for a steady pattern or
detected buffering, clamped to 1. -/
noncomputable def calculateConfidence (analysis : BufferingAnalysis) (metrics : StreamMetrics) : ℝ :=
  let confidence : ℝ := 0.5
  let confidence :=
    if 10 ≤ metrics.totalChunks then confidence + 0.3
    else if 5 ≤ metrics.totalChunks then confidence + 0.2
    else if 2 ≤ metrics.totalChunks then confidence + 0.1
    else confidence
  let confidence :=
    if analysis.chunkPattern = "steady" ∨ analysis.bufferingDetected then confidence + 0.2
    else confidence
  if 1 < confidence then 1 else confidence

/-- Inter-chunk delays in milliseconds (streaming.go lines 302-307):
`float64((elapsed[i] - elapsed[i-1]).Milliseconds())`, one truncating
division by 10^6 per consecutive pair. -/
def interDelaysMs (chunks : List ChunkTiming) : List ℝ :=
  (chunks.zip chunks.tail).map
    (fun pc => (((pc.2.elapsedTime - pc.1.elapsedTime).tdiv 1000000 : ℤ) : ℝ))

/-- Embeds `AnalyzeBuffering` (streaming.go lines 286-342).  With fewer
than two chunks it returns the "insufficient_data" sentinel with the
-1 delay sentinels.  Otherwise it computes the delay statistics, the
coefficient of variation (0 when the mean is not positive), the pattern,
the buffering verdict, and the confidence.  The Go function also takes
the request's `TimingBreakdown`, which it never reads; the parameter is
kept for signature fidelity. -/
noncomputable def AnalyzeBuffering (metrics : StreamMetrics) (_timing : TimingBreakdown) :
    BufferingAnalysis :=
  let base : BufferingAnalysis :=
    { timeToFirstByte := metrics.firstChunkTime, minDelay := -1, maxDelay := -1 }
  if metrics.chunkTimings.length < 2 then
    { base with chunkPattern := "insufficient_data" }
  else
    let chunks := metrics.chunkTimings
    let delays := interDelaysMs chunks
    let mean := calculateMean delays
    let sd := calculateStdDev delays mean
    let minD : ℝ := match delays with | [] => -1 | d :: ds => ds.foldl min d
    let maxD : ℝ := match delays with | [] => -1 | d :: ds => ds.foldl max d
    let cv : ℝ := if 0 < mean then sd / mean else 0
    let pattern := detectChunkPattern cv delays
    let a1 : BufferingAnalysis :=
      { timeToFirstByte := metrics.firstChunkTime
        firstChunkGap := (chunks.getD 1 default).elapsedTime - (chunks.getD 0 default).elapsedTime
        chunkPattern := pattern
        chunkTimingCV := cv
        meanDelay := mean
        stdDevDelay := sd
        minDelay := minD
        maxDelay := maxD }
    let a2 : BufferingAnalysis := { a1 with bufferingDetected := detectBuffering a1 metrics }
    { a2 with confidence := calculateConfidence a2 metrics }

/-! ## Streaming reader (streaming.go `StreamingReader`)

The Go reader wraps an `io.Reader` and mutates `{startTime, lastRead,
chunkNumber, totalBytes, metrics}`.  The wrapped reader's behaviour at
each call is an environment datum: the bytes it places in the caller's
buffer, the error it returns, and the wall-clock instant `time.Now()`
observed during the call. -/

/-- One call's behaviour of the wrapped underlying reader. -/
structure ReadStep where
  bytes : List ℕ := []
  err : Option String := none
  now : ℤ := 0

/-- Embeds the mutable state of `StreamingReader` together with the
metrics fields `Read` updates. -/
structure StreamingReaderState where
  startTime : ℤ := 0
  lastRead : ℤ := 0
  chunkNumber : ℤ := 0
  totalBytes : ℤ := 0
  chunkTimings : List ChunkTiming := []
  firstChunkTime : ℤ := 0
  lastChunkTime : ℤ := 0

/-- Embeds `NewStreamingReader` (streaming.go lines 93-106). -/
def newStreamingReader (now : ℤ) : StreamingReaderState :=
  { startTime := now, lastRead := now }

/-- Embeds `StreamingReader.Read` (streaming.go lines 109-144): forward
the underlying read verbatim; when it returned bytes, append one
`ChunkTiming` and update the counters.  The returned triple is (bytes in
the caller's buffer, error, updated reader state). -/
def srRead (sr : StreamingReaderState) (step : ReadStep) :
    List ℕ × Option String × StreamingReaderState :=
  let n : ℤ := (step.bytes.length : ℤ)
  if 0 < n then
    let elapsed := step.now - sr.startTime
    let chunkDuration : ℚ := ((step.now - sr.lastRead : ℤ) : ℚ) / 1000000000
    let throughput : ℚ := if 0 < chunkDuration then (n : ℚ) * 8 / (chunkDuration * 1000000) else 0
    let chunk : ChunkTiming :=
      { sequenceNumber := sr.chunkNumber, size := n, elapsedTime := elapsed
        timestamp := step.now, throughput := throughput }
    (step.bytes, step.err,
      { sr with
          chunkTimings := sr.chunkTimings ++ [chunk]
          firstChunkTime := if sr.chunkNumber = 0 then elapsed else sr.firstChunkTime
          chunkNumber := sr.chunkNumber + 1
          totalBytes := sr.totalBytes + n
          lastRead := step.now
          lastChunkTime := elapsed })
  else (step.bytes, step.err, sr)

/-- Draining a body directly: concatenate the bytes of successive reads,
stopping (inclusively) at the first read that reports an error or EOF,
as `io.ReadAll` / `io.Copy` do. -/
def readAllInner : List ReadStep → List ℕ
  | [] => []
  | s :: rest => if s.err = none then s.bytes ++ readAllInner rest else s.bytes

/-- Draining a body through the `StreamingReader` decoration. -/
def readAllSR : StreamingReaderState → List ReadStep → List ℕ
  | _, [] => []
  | sr, s :: rest =>
    let r := srRead sr s
    if r.2.1 = none then r.1 ++ readAllSR r.2.2 rest else r.1

/-! ## Concurrent load generator (internal/app/app.go `App.runLoad`)

`runLoad` checks only that the URL list is non-empty, makes a job
channel of capacity `Requests * len(URLs)`, starts `Concurrency` worker
goroutines (a non-positive count starts none), enqueues `Requests` jobs
per URL, closes the channel and joins the workers.  Each worker calls
`Client.MeasureRequest` per job and records the returned timing into the
collector only when it is non-nil (`if timing != nil`).
`MeasureRequest` (internal/client/http.go lines 113-194) returns a nil
timing exactly when `http.NewRequest` fails (invalid URL or method);
a transport error from `client.Do` returns the partial timing with its
`Error` field set.  The schedule-independent outcome is modelled below;
with at least one worker every enqueued job is executed exactly once,
with none the enqueued jobs are never taken and the join returns at
once. -/

/-- The environment's behaviour for one request URL. -/
inductive NetOutcome where
  /-- Request construction fails (`http.NewRequest` error): nil timing. -/
  | badRequest : NetOutcome
  /-- Transport failure (`client.Do` error): the partial timing is
  returned with the error text set. -/
  | transportErr (e : String) (t : TimingBreakdown) : NetOutcome
  /-- Full exchange: the measured timing (its error field may carry a
  body-read error, as in the source). -/
  | success (t : TimingBreakdown) : NetOutcome

/-- Embeds the observable result of `Client.MeasureRequest`: `none` when
the request could not be constructed, otherwise the sample handed to the
worker, carrying the transport error text when the exchange failed. -/
def measureRequest (net : String → NetOutcome) (url : String) : Option TimingBreakdown :=
  match net url with
  | .badRequest => none
  | .transportErr e t => some { t with error := e }
  | .success t => some t

/-- Load-run configuration (internal/app/app.go `Config`), restricted to
the fields `runLoad` reads.  `Requests` is a `Nat`: a negative request
count makes the Go code panic at `make(chan job, totalRequests)` before
any of the behaviour modelled here. -/
structure LoadConfig where
  urls : List String := []
  requests : ℕ := 0
  concurrency : ℤ := 0

/-- The flat job queue: URLs outer, repetitions inner. -/
def loadJobs (cfg : LoadConfig) : List String :=
  cfg.urls.flatMap (fun u => List.replicate cfg.requests u)

/-- Schedule-independent outcome of a load run. -/
structure LoadOutcome where
  jobsEnqueued : ℕ := 0
  workersStarted : ℕ := 0
  samples : List TimingBreakdown := []
deriving DecidableEq

/-- Embeds `App.runLoad` (app.go lines 223-293): error only on an empty
URL list; otherwise enqueue every job, start `max(concurrency, 0)`
workers, and collect one sample per job whose `MeasureRequest` returned
a non-nil timing — with no worker, no job is ever taken. -/
def runLoad (net : String → NetOutcome) (cfg : LoadConfig) : Except String LoadOutcome :=
  if cfg.urls = [] then .error "no URLs provided"
  else
    let jobs := loadJobs cfg
    let workers := cfg.concurrency.toNat
    .ok { jobsEnqueued := jobs.length
          workersStarted := workers
          samples := if workers = 0 then [] else jobs.filterMap (measureRequest net) }

/-! ## Helper lemmas -/

theorem length_filterMap_eq_countP {α β : Type} (f : α → Option β) (l : List α) :
    (l.filterMap f).length = l.countP (fun a => (f a).isSome) := by
  induction l with
  | nil => rfl
  | cons a l ih =>
    cases h : f a <;> simp [List.filterMap_cons, h, List.countP_cons, ih]

theorem loadJobs_length (cfg : LoadConfig) :
    (loadJobs cfg).length = cfg.urls.length * cfg.requests := by
  unfold loadJobs
  induction cfg.urls with
  | nil => simp
  | cons u us ih => simp [List.flatMap_cons, ih, Nat.succ_mul, Nat.add_comm]

/-! ## C1: non-positive concurrency in a load run -/

/-- C1 counterexample: with `concurrency = 0` and one URL repeated
twice, `runLoad` does not reject the configuration: it returns
successfully, having enqueued both jobs (so "no job is enqueued" also
fails), started no worker and recorded no sample. -/
theorem runLoad_zero_concurrency_not_rejected :
    runLoad (fun _ => .success {}) { urls := ["http://a"], requests := 2, concurrency := 0 } =
      .ok { jobsEnqueued := 2, workersStarted := 0, samples := [] } := by
  rfl

/-- C1 amended: `runLoad` performs no concurrency validation.  For any
configuration with a non-empty URL list and `concurrency ≤ 0`, it
enqueues all `requests × |urls|` jobs, starts no worker, records no
sample, and completes without error; the only configuration rejected
before dispatch is an empty URL list. -/
theorem runLoad_ignores_nonpositive_concurrency (net : String → NetOutcome) (cfg : LoadConfig)
    (h1 : cfg.urls ≠ []) (h2 : cfg.concurrency ≤ 0) :
    runLoad net cfg =
      .ok { jobsEnqueued := cfg.requests * cfg.urls.length, workersStarted := 0, samples := [] } := by
  have hw : cfg.concurrency.toNat = 0 := Int.toNat_of_nonpos h2
  simp [runLoad, h1, hw, loadJobs_length, Nat.mul_comm]

/-- C1 witness: the amended theorem instantiated at a concrete
configuration. -/
theorem runLoad_ignores_nonpositive_concurrency_witness :
    runLoad (fun _ => .success {}) { urls := ["http://a", "http://b"], requests := 3, concurrency := -2 } =
      .ok { jobsEnqueued := 6, workersStarted := 0, samples := [] } := by
  have h := runLoad_ignores_nonpositive_concurrency (fun _ => .success {})
    { urls := ["http://a", "http://b"], requests := 3, concurrency := -2 }
    (by simp) (by decide)
  simpa using h

/-! ## C4: every measured sample is recorded -/

/-- C4 counterexample: a job whose URL cannot be turned into a request
(`http.NewRequest` fails, e.g. a URL with a space in the host) makes
`MeasureRequest` return a nil timing, which the worker's
`if timing != nil` guard silently drops: one job is enqueued but zero
samples are recorded, so the sample count does not equal the job
count. -/
theorem runLoad_drops_unconstructible_request :
    ∃ out, runLoad (fun _ => .badRequest)
        { urls := ["http://bad url"], requests := 1, concurrency := 1 } = .ok out ∧
      out.jobsEnqueued = 1 ∧ out.samples.length = 0 :=
  ⟨_, rfl, rfl, rfl⟩

/-- C4 amended: with at least one worker, the collector receives exactly
the samples of the jobs whose request could be constructed — one sample
per such job, in particular a transport error neither stops the worker
nor discards the sample (the error text is carried in the sample's error
field); the number of recorded samples equals the number of jobs
whenever every job yields a measurement. -/
theorem runLoad_records_every_measured_sample (net : String → NetOutcome) (cfg : LoadConfig)
    (h1 : cfg.urls ≠ []) (h2 : 0 < cfg.concurrency) :
    ∃ out, runLoad net cfg = .ok out ∧
      out.samples = (loadJobs cfg).filterMap (measureRequest net) ∧
      out.samples.length = (loadJobs cfg).countP (fun u => (measureRequest net u).isSome) ∧
      (∀ u ∈ loadJobs cfg, ∀ e t, net u = .transportErr e t →
        ({ t with error := e } : TimingBreakdown) ∈ out.samples) ∧
      ((∀ u ∈ loadJobs cfg, (measureRequest net u).isSome) →
        out.samples.length = out.jobsEnqueued) := by
  have hw : cfg.concurrency.toNat ≠ 0 := by omega
  refine ⟨{ jobsEnqueued := (loadJobs cfg).length, workersStarted := cfg.concurrency.toNat,
            samples := (loadJobs cfg).filterMap (measureRequest net) },
    by simp [runLoad, h1, hw], rfl, ?_, ?_, ?_⟩
  · exact length_filterMap_eq_countP _ _
  · intro u hu e t hnet
    exact List.mem_filterMap.mpr ⟨u, hu, by simp [measureRequest, hnet]⟩
  · intro hall
    simp only [length_filterMap_eq_countP]
    exact List.countP_eq_length.mpr (by simpa using hall)

/-- C4 witness: the amended theorem at a run of one URL and one worker
whose single request fails at the transport layer. -/
theorem runLoad_records_every_measured_sample_witness :
    ∃ out, runLoad (fun _ => .transportErr "connection refused" {})
        { urls := ["http://a"], requests := 1, concurrency := 1 } = .ok out ∧
      out.samples = (loadJobs { urls := ["http://a"], requests := 1, concurrency := 1 }).filterMap
        (measureRequest (fun _ => .transportErr "connection refused" {})) ∧
      out.samples.length = (loadJobs { urls := ["http://a"], requests := 1, concurrency := 1 }).countP
        (fun u => (measureRequest (fun _ => .transportErr "connection refused" {}) u).isSome) ∧
      (∀ u ∈ loadJobs { urls := ["http://a"], requests := 1, concurrency := 1 }, ∀ e t,
        (fun _ => .transportErr "connection refused" {}) u = NetOutcome.transportErr e t →
        ({ t with error := e } : TimingBreakdown) ∈ out.samples) ∧
      ((∀ u ∈ loadJobs { urls := ["http://a"], requests := 1, concurrency := 1 },
        (measureRequest (fun _ => .transportErr "connection refused" {}) u).isSome) →
        out.samples.length = out.jobsEnqueued) :=
  runLoad_records_every_measured_sample _ _ (by simp) (by decide)

/-! ## C7: the buffering verdict is exactly the score threshold -/

/-- C7: `detectBuffering` returns true exactly when the weighted signal
score — 2 for a single-chunk delivery, 1 for a time-to-first-byte over
1 s with a burst pattern, 1 for a first-to-second-chunk gap over 1 s,
and 1 for a coefficient of variation under 0.3 with a time-to-first-byte
over 500 ms — reaches 2. -/
theorem detectBuffering_iff_score (a : BufferingAnalysis) (m : StreamMetrics) :
    detectBuffering a m = true ↔
      2 ≤ (if m.totalChunks = 1 then 2 else 0) +
          (if 1000000000 < a.timeToFirstByte ∧ a.chunkPattern = "burst" then 1 else 0) +
          (if 1000000000 < a.firstChunkGap then 1 else 0) +
          (if a.chunkTimingCV < 0.3 ∧ 500000000 < a.timeToFirstByte then 1 else 0) := by
  unfold detectBuffering
  simp only [decide_eq_true_eq]
  split_ifs <;> omega

/-! ## C8, C3: stall detection -/

theorem stallsLoop_eq (threshold : ℤ) (prev : ChunkTiming) (rest : List ChunkTiming) (acc : ℤ) :
    stallsLoop threshold prev rest acc =
      (List.range rest.length).filterMap (fun i =>
        let p := (prev :: rest).getD i default
        let c := (prev :: rest).getD (i + 1) default
        let delay := c.elapsedTime - p.elapsedTime
        if threshold < delay then
          some { startTime := p.elapsedTime, endTime := c.elapsedTime, duration := delay
                 position := acc + (((prev :: rest).take i).map (fun x => x.size)).sum }
        else none) := by
  induction rest generalizing prev acc with
  | nil => rfl
  | cons curr rest2 ih =>
    have htail : stallsLoop threshold curr rest2 (acc + prev.size) =
        (List.range rest2.length).filterMap (fun i =>
          let p := (curr :: rest2).getD i default
          let c := (curr :: rest2).getD (i + 1) default
          let delay := c.elapsedTime - p.elapsedTime
          if threshold < delay then
            some { startTime := p.elapsedTime, endTime := c.elapsedTime, duration := delay
                   position := acc + prev.size + (((curr :: rest2).take i).map (fun x => x.size)).sum }
          else none) := ih curr (acc + prev.size)
    rw [stallsLoop, htail]
    simp only [List.length_cons, List.range_succ_eq_map, List.filterMap_cons,
      List.filterMap_map]
    by_cases hc : threshold < curr.elapsedTime - prev.elapsedTime
    · simp only [hc, List.getD_cons_zero, List.getD_cons_succ, List.take_zero, List.map_nil,
        List.sum_nil, add_zero, ite_true, if_true]
      congr 1
      apply List.filterMap_congr
      intro i _
      simp [Function.comp, List.take_succ_cons, add_assoc]
    · simp only [hc, List.getD_cons_zero, List.getD_cons_succ, List.take_zero, List.map_nil,
        List.sum_nil, add_zero, ite_false, if_false]
      apply List.filterMap_congr
      intro i _
      simp [Function.comp, List.take_succ_cons, add_assoc]

/-- C8: `DetectStalls` emits exactly one `StallInfo` per consecutive
chunk pair whose inter-chunk delay strictly exceeds the threshold, in
timeline order; its duration is that delay and its position is the
cumulative size of all chunks strictly before the chunk that starts the
gap (that chunk's own bytes excluded).  A timeline of zero or one chunk
yields no stalls (`range (length - 1)` is empty). -/
theorem detectStalls_characterization (chunks : List ChunkTiming) (threshold : ℤ) :
    DetectStalls chunks threshold =
      (List.range (chunks.length - 1)).filterMap (fun i =>
        let p := chunks.getD i default
        let c := chunks.getD (i + 1) default
        let delay := c.elapsedTime - p.elapsedTime
        if threshold < delay then
          some { startTime := p.elapsedTime, endTime := c.elapsedTime, duration := delay
                 position := ((chunks.take i).map (fun x => x.size)).sum }
        else none) := by
  match chunks with
  | [] => rfl
  | [_] => rfl
  | c0 :: c1 :: rest =>
    show stallsLoop threshold c0 (c1 :: rest) 0 = _
    rw [stallsLoop_eq]
    apply List.filterMap_congr
    intro i _
    simp

/-- C3 counterexample: a timeline whose four consecutive inter-chunk
delays are 100 ms, 800 ms, 900 ms and 2000 ms (chunks at elapsed 0,
100 ms, 900 ms, 1800 ms, 3800 ms) has three delays exceeding the 500 ms
threshold, so `DetectStalls` reports 3 stalls, not 2. -/
theorem detectStalls_spec_delays_three_stalls :
    (DetectStalls
      [{ sequenceNumber := 0, size := 100, elapsedTime := 0 },
       { sequenceNumber := 1, size := 100, elapsedTime := 100000000 },
       { sequenceNumber := 2, size := 100, elapsedTime := 900000000 },
       { sequenceNumber := 3, size := 100, elapsedTime := 1800000000 },
       { sequenceNumber := 4, size := 100, elapsedTime := 3800000000 }]
      500000000).length = 3 := by
  rfl

/-- C3 amended: the example matching the repository's own test
(`TestDetectStalls`, "multiple stalls"): chunks at elapsed times 100 ms,
800 ms, 900 ms and 2000 ms — inter-chunk delays 700 ms, 100 ms and
1100 ms — with a 500 ms threshold yield exactly 2 stalls, each with
duration ≥ 500 ms. -/
theorem detectStalls_test_timeline_two_stalls :
    (DetectStalls
      [{ sequenceNumber := 0, size := 100, elapsedTime := 100000000 },
       { sequenceNumber := 1, size := 100, elapsedTime := 800000000 },
       { sequenceNumber := 2, size := 100, elapsedTime := 900000000 },
       { sequenceNumber := 3, size := 100, elapsedTime := 2000000000 }]
      500000000).length = 2 ∧
    ∀ s ∈ DetectStalls
      [{ sequenceNumber := 0, size := 100, elapsedTime := 100000000 },
       { sequenceNumber := 1, size := 100, elapsedTime := 800000000 },
       { sequenceNumber := 2, size := 100, elapsedTime := 900000000 },
       { sequenceNumber := 3, size := 100, elapsedTime := 2000000000 }]
      500000000, 500000000 ≤ s.duration := by
  constructor
  · rfl
  · decide

/-! ## C10: the streaming reader is a transparent decoration -/

theorem srRead_bytes (sr : StreamingReaderState) (s : ReadStep) :
    (srRead sr s).1 = s.bytes := by
  simp only [srRead]
  split <;> rfl

theorem srRead_error (sr : StreamingReaderState) (s : ReadStep) :
    (srRead sr s).2.1 = s.err := by
  simp only [srRead]
  split <;> rfl

/-- C10: `StreamingReader.Read` forwards the wrapped reader's result
verbatim — the bytes placed in the caller's buffer and the returned
error are exactly the underlying reader's, the internal state only
appends chunk-timing entries, and draining a body through the reader
yields the same byte stream as reading the body directly. -/
theorem streamingReader_read_transparent (sr : StreamingReaderState) (s : ReadStep)
    (steps : List ReadStep) :
    (srRead sr s).1 = s.bytes ∧ (srRead sr s).2.1 = s.err ∧
    (∃ extra, (srRead sr s).2.2.chunkTimings = sr.chunkTimings ++ extra) ∧
    readAllSR sr steps = readAllInner steps := by
  refine ⟨srRead_bytes sr s, srRead_error sr s, ?_, ?_⟩
  · simp only [srRead]
    split
    · exact ⟨_, rfl⟩
    · exact ⟨[], by simp⟩
  · induction steps generalizing sr with
    | nil => rfl
    | cons t rest ih =>
      rw [readAllSR, readAllInner]
      simp only [srRead_bytes, srRead_error]
      by_cases h : t.err = none <;> simp [h, ih]

/-! ## C5: percentile clamping, interpolation, extremes -/

theorem ratTrunc_intCast (n : ℤ) : ratTrunc (n : ℚ) = n := by
  unfold ratTrunc
  split_ifs with h
  · rw [← Int.cast_neg, Int.floor_intCast]
    omega
  · rw [Int.floor_intCast]

theorem percentile_eq_percentileSpec (l : List ℤ) (p : ℚ) :
    percentile l p = percentileSpec l p := by
  match l with
  | [] => rfl
  | x :: xs =>
    unfold percentile percentileSpec
    by_cases h0 : p ≤ 0
    · simp [h0]
    by_cases h100 : 100 ≤ p
    · simp [h0, h100]
    simp only [h0, h100, if_false]
    have hp0 : 0 < p := lt_of_not_ge h0
    have hp100 : p < 100 := lt_of_not_ge h100
    set n : ℕ := (x :: xs).length with hn
    have hn1 : 1 ≤ n := by simp [hn]
    set idx : ℚ := p / 100 * ((n - 1 : ℕ) : ℚ) with hidxdef
    have hcast : ((n - 1 : ℕ) : ℚ) = (n : ℚ) - 1 := by
      have : (1 : ℚ) ≤ (n : ℚ) := by exact_mod_cast hn1
      push_cast [Nat.cast_sub hn1]
      ring
    have hidx0 : 0 ≤ idx := by
      rw [hidxdef, hcast]
      have h1 : (0 : ℚ) ≤ (n : ℚ) - 1 := by
        have : (1 : ℚ) ≤ (n : ℚ) := by exact_mod_cast hn1
        linarith
      positivity
    have hfl0 : 0 ≤ ⌊idx⌋ := Int.floor_nonneg.mpr hidx0
    have hlow : ((⌊idx⌋.toNat : ℤ)) = ⌊idx⌋ := Int.toNat_of_nonneg hfl0
    by_cases hone : n = 1
    · have hxs : xs = [] := by
        cases xs with
        | nil => rfl
        | cons a as => simp [hn] at hone
      subst hxs
      have hidx : idx = 0 := by
        rw [hidxdef, hone]
        norm_num
      have hfl : (⌊idx⌋).toNat = 0 := by rw [hidx]; norm_num
      have hce : (⌈idx⌉).toNat = 0 := by rw [hidx]; norm_num
      have hguard : n ≤ (⌊idx⌋).toNat + 1 := by omega
      rw [if_pos hguard, hfl, hce, hidx]
      norm_num [ratTrunc_intCast]
    · have hn2 : 2 ≤ n := by omega
      have hidxlt : idx < (n : ℚ) - 1 := by
        rw [hidxdef, hcast]
        have hq : p / 100 < 1 := (div_lt_one (by norm_num : (0:ℚ) < 100)).mpr hp100
        have hpos : (0 : ℚ) < (n : ℚ) - 1 := by
          have : (2 : ℚ) ≤ (n : ℚ) := by exact_mod_cast hn2
          linarith
        calc p / 100 * ((n : ℚ) - 1) < 1 * ((n : ℚ) - 1) :=
              mul_lt_mul_of_pos_right hq hpos
          _ = (n : ℚ) - 1 := one_mul _
      have hfllt : ⌊idx⌋ < (n : ℤ) - 1 := by
        have h1 : ⌊idx⌋ < ((n : ℤ) - 1 : ℤ) ↔ idx < (((n : ℤ) - 1 : ℤ) : ℚ) := Int.floor_lt
        rw [h1]
        push_cast
        exact hidxlt
      have hguard : ¬ (n ≤ ⌊idx⌋.toNat + 1) := by omega
      rw [if_neg hguard]
      by_cases hfrac : idx - (⌊idx⌋ : ℚ) = 0
      · have hceil : ⌈idx⌉ = ⌊idx⌋ := by
          have hx : idx = (⌊idx⌋ : ℚ) := by linarith [hfrac]
          rw [hx, Int.ceil_intCast, Int.floor_intCast]
        have hw : idx - ((⌊idx⌋.toNat : ℕ) : ℚ) = 0 := by
          have hcc : ((⌊idx⌋.toNat : ℕ) : ℚ) = (⌊idx⌋ : ℚ) := by exact_mod_cast hlow
          rw [hcc]
          exact hfrac
        rw [hceil, hw, hfrac]
        congr 1
        ring
      · have hceil : ⌈idx⌉ = ⌊idx⌋ + 1 := by
          have h1 : ⌈idx⌉ ≤ ⌊idx⌋ + 1 := Int.ceil_le_floor_add_one idx
          have h2 : ⌊idx⌋ ≤ ⌈idx⌉ := Int.floor_le_ceil idx
          rcases eq_or_lt_of_le h2 with heq | hlt
          · exfalso
            apply hfrac
            have hle1 : idx ≤ (⌈idx⌉ : ℚ) := Int.le_ceil idx
            have hle2 : (⌊idx⌋ : ℚ) ≤ idx := Int.floor_le idx
            rw [← heq] at hle1
            linarith
          · omega
        have htn : (⌊idx⌋ + 1).toNat = ⌊idx⌋.toNat + 1 := by omega
        have hw : idx - ((⌊idx⌋.toNat : ℕ) : ℚ) = idx - (⌊idx⌋ : ℚ) := by
          have hcc : ((⌊idx⌋.toNat : ℕ) : ℚ) = (⌊idx⌋ : ℚ) := by exact_mod_cast hlow
          rw [hcc]
        rw [hceil, htn, hw]

theorem sorted_head_le (x : ℤ) (xs : List ℤ) (hs : List.Sorted (· ≤ ·) (x :: xs)) :
    ∀ y ∈ x :: xs, x ≤ y := by
  intro y hy
  rcases List.mem_cons.mp hy with rfl | h
  · exact le_refl y
  · exact List.rel_of_sorted_cons hs y h

theorem sorted_le_getLast (x : ℤ) (xs : List ℤ) (hs : List.Sorted (· ≤ ·) (x :: xs)) :
    ∀ y ∈ x :: xs, y ≤ (x :: xs).getLast (List.cons_ne_nil x xs) := by
  induction xs generalizing x with
  | nil =>
    intro y hy
    simp at hy
    simp [hy, List.getLast]
  | cons b m ih =>
    intro y hy
    rw [List.getLast_cons (List.cons_ne_nil b m)]
    rcases List.mem_cons.mp hy with rfl | h2
    · calc y ≤ b := List.rel_of_sorted_cons hs b (by simp)
        _ ≤ (b :: m).getLast (List.cons_ne_nil b m) := ih b (List.Sorted.of_cons hs) b (by simp)
    · exact ih b (List.Sorted.of_cons hs) y h2

/-- C5: for a non-empty ascending-sorted latency list, `percentile`
agrees with the specified computation — first element when `p ≤ 0`, last
when `p ≥ 100`, and otherwise the linear interpolation between the
elements at positions `floor(idx)` and `ceil(idx)` weighted by the
fractional part of `idx = (p/100)(n-1)` (`percentileSpec`) — and in
particular `percentile l 100` is the maximum of the list and
`percentile l 0` its minimum. -/
theorem percentile_matches_spec_and_extremes (l : List ℤ) (p : ℚ) (hne : l ≠ [])
    (hs : List.Sorted (· ≤ ·) l) :
    percentile l p = percentileSpec l p ∧
    (∀ y ∈ l, y ≤ percentile l 100) ∧ percentile l 100 ∈ l ∧
    (∀ y ∈ l, percentile l 0 ≤ y) ∧ percentile l 0 ∈ l := by
  cases l with
  | nil => cases hne rfl
  | cons x xs =>
    have h100 : percentile (x :: xs) 100 = (x :: xs).getLast (List.cons_ne_nil x xs) := by
      unfold percentile
      norm_num
    have h0 : percentile (x :: xs) 0 = x := by
      unfold percentile
      norm_num
    refine ⟨percentile_eq_percentileSpec _ _, ?_, ?_, ?_, ?_⟩
    · rw [h100]
      exact sorted_le_getLast x xs hs
    · rw [h100]
      exact List.getLast_mem _
    · rw [h0]
      exact sorted_head_le x xs hs
    · rw [h0]
      simp

/-- C5 witness: the theorem evaluated on the sorted list [10, 20, 30]
with p = 50. -/
theorem percentile_matches_spec_and_extremes_witness :
    percentile [10, 20, 30] 50 = percentileSpec [10, 20, 30] 50 ∧
    (∀ y ∈ [10, 20, 30], y ≤ percentile [10, 20, 30] 100) ∧
    percentile [10, 20, 30] 100 ∈ [10, 20, 30] ∧
    (∀ y ∈ [10, 20, 30], percentile [10, 20, 30] 0 ≤ y) ∧
    percentile [10, 20, 30] 0 ∈ [10, 20, 30] :=
  percentile_matches_spec_and_extremes [10, 20, 30] 50 (by simp) (by decide)

/-! ## C6: delivery pattern classification -/

/-- C6: `detectChunkPattern` classifies "steady" when `CV < 0.3`,
"moderate" when `0.3 ≤ CV < 0.7`, and for `CV ≥ 0.7` classifies
"stalled" when the fraction of delays exceeding 500 ms exceeds 0.3 and
"burst" otherwise. -/
theorem detectChunkPattern_classification (cv : ℝ) (delays : List ℝ) :
    (cv < 0.3 → detectChunkPattern cv delays = "steady") ∧
    (0.3 ≤ cv → cv < 0.7 → detectChunkPattern cv delays = "moderate") ∧
    (0.7 ≤ cv →
      0.3 < ((delays.countP (fun d => decide (500 < d)) : ℕ) : ℝ) / (delays.length : ℝ) →
      detectChunkPattern cv delays = "stalled") ∧
    (0.7 ≤ cv →
      ((delays.countP (fun d => decide (500 < d)) : ℕ) : ℝ) / (delays.length : ℝ) ≤ 0.3 →
      detectChunkPattern cv delays = "burst") := by
  unfold detectChunkPattern
  refine ⟨fun h => ?_, fun h1 h2 => ?_, fun h1 h2 => ?_, fun h1 h2 => ?_⟩ <;>
    (try dsimp only) <;> split_ifs <;> first | rfl | (exfalso; linarith)

/-- C6 witness: the theorem at concrete inputs for each of the four
classes (empty delay lists make the long-delay fraction 0/0, which both
Go's NaN comparison and the real-division convention send to the burst
branch). -/
theorem detectChunkPattern_classification_witness :
    detectChunkPattern 0.1 [] = "steady" ∧
    detectChunkPattern 0.5 [] = "moderate" ∧
    detectChunkPattern 1.5 [600, 700, 100] = "stalled" ∧
    detectChunkPattern 1 [] = "burst" :=
  ⟨(detectChunkPattern_classification 0.1 []).1 (by norm_num),
   (detectChunkPattern_classification 0.5 []).2.1 (by norm_num) (by norm_num),
   (detectChunkPattern_classification 1.5 [600, 700, 100]).2.2.1 (by norm_num)
     (by norm_num [List.countP_cons, List.countP_nil]),
   (detectChunkPattern_classification 1 []).2.2.2 (by norm_num)
     (by norm_num [List.countP_nil])⟩

/-! ## C9: latency histogram buckets and their total -/

/-- C9: for a non-empty sample list with non-negative latencies,
`calculate` places each sample in bucket `floor(latency_ms / 10)`
(floor division, `bucket 0 = [0,10ms)`, unbounded above), and the bucket
counts sum to `TotalRequests`. -/
theorem calculate_histogram_sum (ts : List TimingBreakdown) (hne : ts ≠ [])
    (hpos : ∀ t ∈ ts, 0 ≤ t.total) :
    (∀ b : ℤ, (calculate ts).histogram b =
      ts.countP (fun t => (Int.fdiv (Int.fdiv t.total 1000000) 10) == b)) ∧
    (∑ b ∈ (ts.map (fun t => bucketOf t.total)).toFinset,
      (calculate ts).histogram b = ts.length) ∧
    (calculate ts).totalRequests = ts.length := by
  cases ts with
  | nil => cases hne rfl
  | cons t0 trest =>
    have hperm : ((t0 :: trest).map (fun t => t.total)).mergeSort
        (fun a b => decide (a ≤ b)) |>.Perm ((t0 :: trest).map (fun t => t.total)) :=
      List.mergeSort_perm _ _
    have hhist : ∀ b : ℤ, (calculate (t0 :: trest)).histogram b =
        (t0 :: trest).countP (fun t => bucketOf t.total == b) := by
      intro b
      show createHistogram _ b = _
      unfold createHistogram
      rw [hperm.countP_eq, List.countP_map]
      rfl
    have hbridge : ∀ b : ℤ, (t0 :: trest).countP (fun t => bucketOf t.total == b) =
        (t0 :: trest).countP (fun t => (Int.fdiv (Int.fdiv t.total 1000000) 10) == b) := by
      intro b
      apply List.countP_congr
      intro t ht
      have h1 : 0 ≤ t.total := hpos t ht
      have hinner : t.total.tdiv 1000000 = t.total.fdiv 1000000 :=
        (Int.fdiv_eq_tdiv h1 (by norm_num)).symm
      have h2 : 0 ≤ t.total.tdiv 1000000 := Int.tdiv_nonneg h1 (by norm_num)
      have houter : (t.total.tdiv 1000000).tdiv 10 = (t.total.tdiv 1000000).fdiv 10 :=
        (Int.fdiv_eq_tdiv h2 (by norm_num)).symm
      unfold bucketOf
      rw [houter, hinner]
    refine ⟨fun b => (hhist b).trans (hbridge b), ?_, rfl⟩
    have hcount : ∀ b : ℤ, (t0 :: trest).countP (fun t => bucketOf t.total == b) =
        ((t0 :: trest).map (fun t => bucketOf t.total)).count b := by
      intro b
      rw [List.count_eq_countP, List.countP_map]
      rfl
    calc ∑ b ∈ ((t0 :: trest).map (fun t => bucketOf t.total)).toFinset,
          (calculate (t0 :: trest)).histogram b
        = ∑ b ∈ ((t0 :: trest).map (fun t => bucketOf t.total)).toFinset,
          ((t0 :: trest).map (fun t => bucketOf t.total)).count b := by
          apply Finset.sum_congr rfl
          intro b _
          rw [hhist b, hcount b]
      _ = ((t0 :: trest).map (fun t => bucketOf t.total)).length := by
          simpa using
            Multiset.toFinset_sum_count_eq (((t0 :: trest).map (fun t => bucketOf t.total)) : Multiset ℤ)
      _ = (t0 :: trest).length := by simp

/-- C9 witness: latencies 5 ms, 15 ms, 25 ms, 95 ms and 105 ms (the
repository's own histogram test) land in buckets 0, 1, 2, 9 and 10, and
the counts sum to 5. -/
theorem calculate_histogram_sum_witness :
    (∀ b : ℤ, (calculate
        [{ total := 5000000 }, { total := 15000000 }, { total := 25000000 },
         { total := 95000000 }, { total := 105000000 }]).histogram b =
      [({ total := 5000000 } : TimingBreakdown), { total := 15000000 }, { total := 25000000 },
         { total := 95000000 }, { total := 105000000 }].countP
        (fun t => (Int.fdiv (Int.fdiv t.total 1000000) 10) == b)) ∧
    (∑ b ∈ ([({ total := 5000000 } : TimingBreakdown), { total := 15000000 },
        { total := 25000000 }, { total := 95000000 }, { total := 105000000 }].map
          (fun t => bucketOf t.total)).toFinset,
      (calculate
        [{ total := 5000000 }, { total := 15000000 }, { total := 25000000 },
         { total := 95000000 }, { total := 105000000 }]).histogram b = 5) ∧
    (calculate
        [{ total := 5000000 }, { total := 15000000 }, { total := 25000000 },
         { total := 95000000 }, { total := 105000000 }]).totalRequests = 5 :=
  calculate_histogram_sum
    [{ total := 5000000 }, { total := 15000000 }, { total := 25000000 },
     { total := 95000000 }, { total := 105000000 }]
    (by simp) (by decide)

/-! ## C2: confidence scoring -/

theorem calculateConfidence_ten_steady (a : BufferingAnalysis) (m : StreamMetrics)
    (h10 : 10 ≤ m.totalChunks) (hsteady : a.chunkPattern = "steady") :
    calculateConfidence a m = 1 := by
  unfold calculateConfidence
  dsimp only
  rw [if_pos h10, if_pos (Or.inl hsteady), if_neg (by norm_num)]
  norm_num

theorem analyzeBuffering_two_chunks (m : StreamMetrics) (tm : TimingBreakdown)
    (hlen : m.chunkTimings.length = 2) (htot : m.totalChunks = 2) :
    (AnalyzeBuffering m tm).chunkPattern = "steady" ∧
    (AnalyzeBuffering m tm).confidence = 4/5 := by
  obtain ⟨a1, b1, hab⟩ := List.length_eq_two.mp hlen
  unfold AnalyzeBuffering
  rw [if_neg (by rw [hlen]; norm_num)]
  rw [hab]
  set d : ℝ := (((b1.elapsedTime - a1.elapsedTime).tdiv 1000000 : ℤ) : ℝ) with hd
  have hdelays : interDelaysMs [a1, b1] = [d] := by
    simp [interDelaysMs, hd]
  have hmean : calculateMean [d] = d := by
    simp [calculateMean]
  have hsd : calculateStdDev [d] d = 0 := by
    simp [calculateStdDev, Real.sqrt_zero]
  have hcv : (if 0 < d then (0:ℝ) / d else 0) = 0 := by
    split_ifs <;> simp
  have hpattern : detectChunkPattern 0 [d] = "steady" := by
    unfold detectChunkPattern
    rw [if_pos (by norm_num)]
  dsimp only
  rw [hdelays, hmean, hsd, hcv, hpattern]
  refine ⟨rfl, ?_⟩
  unfold calculateConfidence
  dsimp only
  rw [htot, if_pos (Or.inl (rfl : "steady" = "steady"))]
  rw [if_neg (by norm_num : ¬ ((10:ℤ) ≤ 2)), if_neg (by norm_num : ¬ ((5:ℤ) ≤ 2)),
    if_pos (by norm_num : (2:ℤ) ≤ 2)]
  rw [if_neg (by norm_num : ¬ ((1:ℝ) < 0.5 + 0.1 + 0.2))]
  norm_num

/-- C2 counterexample: a 2-chunk stream (chunks at 100 ms and 200 ms)
always classifies "steady" — one inter-chunk delay has zero standard
deviation, hence CV 0 — so the confidence is 0.5 + 0.1 + 0.2 = 0.8,
outside the interval [0.5, 0.7] the claim states. -/
theorem two_chunk_confidence_outside_interval :
    (AnalyzeBuffering
      { chunkTimings :=
          [{ sequenceNumber := 0, size := 100, elapsedTime := 100000000 },
           { sequenceNumber := 1, size := 100, elapsedTime := 200000000 }]
        firstChunkTime := 100000000
        totalChunks := 2 } {}).confidence = 4/5 ∧
    ¬ ((AnalyzeBuffering
      { chunkTimings :=
          [{ sequenceNumber := 0, size := 100, elapsedTime := 100000000 },
           { sequenceNumber := 1, size := 100, elapsedTime := 200000000 }]
        firstChunkTime := 100000000
        totalChunks := 2 } {}).confidence ≤ 7/10) := by
  have h := analyzeBuffering_two_chunks
    { chunkTimings :=
        [{ sequenceNumber := 0, size := 100, elapsedTime := 100000000 },
         { sequenceNumber := 1, size := 100, elapsedTime := 200000000 }]
      firstChunkTime := 100000000
      totalChunks := 2 } {} (by simp) rfl
  refine ⟨h.2, ?_⟩
  rw [h.2]
  norm_num

/-- C2 amended: a stream with exactly 2 chunks always gets confidence
0.8 (base 0.5, plus 0.1 for at least 2 chunks, plus 0.2 because a
single inter-chunk delay always classifies "steady"), not a value in
[0.5, 0.7]; a stream with at least 10 chunks and a "steady" pattern
gets confidence exactly 1.0, as the claim states. -/
theorem confidence_two_chunks_and_steady_ten (m m2 : StreamMetrics) (a : BufferingAnalysis)
    (tm : TimingBreakdown)
    (hlen : m.chunkTimings.length = 2) (htot : m.totalChunks = 2)
    (h10 : 10 ≤ m2.totalChunks) (hsteady : a.chunkPattern = "steady") :
    (AnalyzeBuffering m tm).confidence = 4/5 ∧ calculateConfidence a m2 = 1 :=
  ⟨(analyzeBuffering_two_chunks m tm hlen htot).2,
   calculateConfidence_ten_steady a m2 h10 hsteady⟩

/-- C2 witness: the amended theorem at a concrete 2-chunk stream and a
concrete 15-chunk steady analysis. -/
theorem confidence_two_chunks_and_steady_ten_witness :
    (AnalyzeBuffering
      { chunkTimings :=
          [{ sequenceNumber := 0, size := 10, elapsedTime := 50000000 },
           { sequenceNumber := 1, size := 10, elapsedTime := 350000000 }]
        firstChunkTime := 50000000
        totalChunks := 2 } {}).confidence = 4/5 ∧
    calculateConfidence { chunkPattern := "steady" } { totalChunks := 15 } = 1 :=
  confidence_two_chunks_and_steady_ten
    { chunkTimings :=
        [{ sequenceNumber := 0, size := 10, elapsedTime := 50000000 },
         { sequenceNumber := 1, size := 10, elapsedTime := 350000000 }]
      firstChunkTime := 50000000
      totalChunks := 2 }
    { totalChunks := 15 } { chunkPattern := "steady" } {}
    (by simp) rfl (by norm_num) rfl

end Gocurl
